import Mathlib

/-!
# Verification of the CYBFFmpeg frame-cache and prefetch core

Shallow embedding of `cyb-ffmpeg-core`:

* `src/cache/mod.rs` — the three-tier frame cache (`Cache`): tolerance-based
  lookup (`get` / `find_in_cache`), per-tier insertion with FIFO-by-insertion
  eviction (`insert_l1` / `insert_l2` / `insert_l3`), statistics and `clear`.
* `src/threading/mod.rs` — the prefetch manager (`PrefetchManager`):
  start/stop worker lifecycle, the shared command channel, the per-worker
  prefetch cycle with bounds checking and velocity-based throttling.

Rust `HashMap<i64, CacheEntry>` is modelled as an association list with unique
keys (`List (Int × CacheEntry)`); list order stands for the map's arbitrary
iteration order.  `i64` is modelled as `Int` (timestamps are microsecond
values far from the 64-bit range in every behaviour claimed here), `usize` and
`u64` counters as `Nat`, and `f64` velocity as `ℚ` (exact at every dyadic
input considered).
-/

/-- Pixel format of a decoded frame (`decoder/config.rs`). -/
inductive PixelFormat where
  | bgra
  | nv12
  | yuv420p
deriving DecidableEq, Repr

/-- Decoded video frame (`decoder/frame.rs`, `VideoFrame`).  The raw pixel
buffer is modelled as a list of bytes (only its length is ever observed by
the cache, for memory statistics). -/
structure VideoFrame where
  data : List Nat
  width : Nat
  height : Nat
  stride : Nat
  pts_us : Int
  duration_us : Int
  is_keyframe : Bool
  frame_number : Int
  pixel_format : PixelFormat
deriving DecidableEq, Repr

/-- LRU cache entry (`cache/mod.rs`, `CacheEntry`). -/
structure CacheEntry where
  frame : VideoFrame
  access_count : Nat
deriving DecidableEq, Repr

/-- Cache configuration (`cache/mod.rs`, `CacheConfig`). -/
structure CacheConfig where
  l1_capacity : Nat
  l2_capacity : Nat
  l3_capacity : Nat
  enable_prefetch : Bool
deriving DecidableEq, Repr

/-- Cache statistics (`cache/mod.rs`, `CacheStatistics`). -/
structure CacheStatistics where
  l1_entries : Nat
  l2_entries : Nat
  l3_entries : Nat
  l1_hit_count : Nat
  l2_hit_count : Nat
  l3_hit_count : Nat
  miss_count : Nat
  memory_usage_bytes : Nat
deriving DecidableEq, Repr

/-- The association-list model of `HashMap<i64, CacheEntry>`. -/
abbrev FrameMap := List (Int × CacheEntry)

namespace FrameMap

/-- `HashMap::get`: the value stored under key `k` (keys are unique). -/
def mapGet (m : FrameMap) (k : Int) : Option CacheEntry :=
  (m.find? (fun kv => kv.1 = k)).map (fun kv => kv.2)

/-- `HashMap::remove k` (ignoring the returned value). -/
def mapRemove (m : FrameMap) (k : Int) : FrameMap :=
  m.filter (fun kv => kv.1 ≠ k)

/-- `HashMap::insert k v`: replaces any existing entry for `k`. -/
def mapInsert (m : FrameMap) (k : Int) (v : CacheEntry) : FrameMap :=
  mapRemove m k ++ [(k, v)]

/-- The keys of the map. -/
def keys (m : FrameMap) : List Int := m.map (fun kv => kv.1)

end FrameMap

open FrameMap

/-- One tier's eviction loop (`cache/mod.rs:180-183` and its twins at
`204-207`, `225-228`):
`while cache.len() >= capacity && !order.is_empty() { let oldest = order.remove(0); cache.remove(&oldest); }`. -/
def evictLoop (capacity : Nat) : FrameMap → List Int → FrameMap × List Int
  | m, [] => (m, [])
  | m, o :: rest =>
      if capacity ≤ m.length then evictLoop capacity (mapRemove m o) rest
      else (m, o :: rest)

/-- One tier's insert (`cache/mod.rs`, the common body of `insert_l1` /
`insert_l2` / `insert_l3`): evict while at capacity, then store the new entry
with `access_count = 1` and push the key on the order queue. -/
def insertTier (capacity : Nat) (pts_us : Int) (frame : VideoFrame) :
    FrameMap × List Int → FrameMap × List Int
  | (m, order) =>
      let evicted := evictLoop capacity m order
      (mapInsert evicted.1 pts_us { frame := frame, access_count := 1 },
       evicted.2 ++ [pts_us])

/-- Multi-tier frame cache state (`cache/mod.rs`, `Cache`): the three tier
maps, their order queues, and the atomic hit/miss counters. -/
structure Cache where
  config : CacheConfig
  l1 : FrameMap
  l2 : FrameMap
  l3 : FrameMap
  l1_order : List Int
  l2_order : List Int
  l3_order : List Int
  l1_hits : Nat
  l2_hits : Nat
  l3_hits : Nat
  misses : Nat
deriving DecidableEq, Repr

namespace Cache

/-- `Cache::new`. -/
def new (config : CacheConfig) : Cache :=
  { config := config
    l1 := [], l2 := [], l3 := []
    l1_order := [], l2_order := [], l3_order := []
    l1_hits := 0, l2_hits := 0, l3_hits := 0, misses := 0 }

/-- Rust `Iterator::min_by_key`left fold: keeps the earliest element whose
key is minimal (a later element replaces the accumulator only when strictly
smaller). -/
def minByKey {α : Type} (f : α → Nat) (l : List α) : Option α :=
  l.foldl
    (fun acc x =>
      match acc with
      | none => some x
      | some b => if f x < f b then some x else some b)
    none

/-- `Cache::find_in_cache`: exact key match first, otherwise the entry whose
key lies within `[pts_us - tolerance_us, pts_us + tolerance_us]` with minimal
absolute distance to `pts_us`. -/
def find_in_cache (m : FrameMap) (pts_us tolerance_us : Int) : Option VideoFrame :=
  match mapGet m pts_us with
  | some entry => some entry.frame
  | none =>
      let lo := pts_us - tolerance_us
      let hi := pts_us + tolerance_us
      let candidates := m.filter (fun kv => lo ≤ kv.1 ∧ kv.1 ≤ hi)
      (minByKey (fun kv => (kv.1 - pts_us).natAbs) candidates).map
        (fun kv => kv.2.frame)

/-- `Cache::insert_l1`. -/
def insert_l1 (s : Cache) (pts_us : Int) (frame : VideoFrame) : Cache :=
  let t := insertTier s.config.l1_capacity pts_us frame (s.l1, s.l1_order)
  { s with l1 := t.1, l1_order := t.2 }

/-- `Cache::insert_l2`: silently rejects non-keyframes. -/
def insert_l2 (s : Cache) (pts_us : Int) (frame : VideoFrame) : Cache :=
  if !frame.is_keyframe then s
  else
    let t := insertTier s.config.l2_capacity pts_us frame (s.l2, s.l2_order)
    { s with l2 := t.1, l2_order := t.2 }

/-- `Cache::insert_l3`. -/
def insert_l3 (s : Cache) (pts_us : Int) (frame : VideoFrame) : Cache :=
  let t := insertTier s.config.l3_capacity pts_us frame (s.l3, s.l3_order)
  { s with l3 := t.1, l3_order := t.2 }

/-- `Cache::get`: L1, then L2, then L3; the winning tier's hit counter is
incremented, and an L2 or L3 hit is promoted into L1 under the queried
timestamp.  Returns the optional frame together with the updated cache. -/
def get (s : Cache) (pts_us tolerance_us : Int) : Option VideoFrame × Cache :=
  match find_in_cache s.l1 pts_us tolerance_us with
  | some frame => (some frame, { s with l1_hits := s.l1_hits + 1 })
  | none =>
      match find_in_cache s.l2 pts_us tolerance_us with
      | some frame =>
          (some frame, insert_l1 { s with l2_hits := s.l2_hits + 1 } pts_us frame)
      | none =>
          match find_in_cache s.l3 pts_us tolerance_us with
          | some frame =>
              (some frame, insert_l1 { s with l3_hits := s.l3_hits + 1 } pts_us frame)
          | none => (none, s)

/-- `Cache::record_miss`. -/
def record_miss (s : Cache) : Cache :=
  { s with misses := s.misses + 1 }

/-- `Cache::calculate_memory_usage`: sum of frame buffer sizes over tiers. -/
def calculate_memory_usage (l1 l2 l3 : FrameMap) : Nat :=
  (l1.map (fun kv => kv.2.frame.data.length)).sum +
  (l2.map (fun kv => kv.2.frame.data.length)).sum +
  (l3.map (fun kv => kv.2.frame.data.length)).sum

/-- `Cache::statistics`. -/
def statistics (s : Cache) : CacheStatistics :=
  { l1_entries := s.l1.length
    l2_entries := s.l2.length
    l3_entries := s.l3.length
    l1_hit_count := s.l1_hits
    l2_hit_count := s.l2_hits
    l3_hit_count := s.l3_hits
    miss_count := s.misses
    memory_usage_bytes := calculate_memory_usage s.l1 s.l2 s.l3 }

/-- `Cache::clear`: empties maps and order queues, leaves counters alone. -/
def clear (s : Cache) : Cache :=
  { s with l1 := [], l2 := [], l3 := []
           l1_order := [], l2_order := [], l3_order := [] }

end Cache

/-- One insertion call against the cache, for reasoning about arbitrary
sequences of inserts. -/
inductive CacheOp where
  | insL1 (pts_us : Int) (frame : VideoFrame)
  | insL2 (pts_us : Int) (frame : VideoFrame)
  | insL3 (pts_us : Int) (frame : VideoFrame)
deriving DecidableEq, Repr

/-- Apply one insert. -/
def applyOp (s : Cache) : CacheOp → Cache
  | .insL1 p f => s.insert_l1 p f
  | .insL2 p f => s.insert_l2 p f
  | .insL3 p f => s.insert_l3 p f

/-- Run a sequence of inserts against a freshly created cache. -/
def runOps (config : CacheConfig) (ops : List CacheOp) : Cache :=
  ops.foldl applyOp (Cache.new config)

/-! ## Threading module (`threading/mod.rs`) -/

/-- Prefetch command (`threading/mod.rs`, `PrefetchCommand`). -/
inductive PrefetchCommand where
  | start (direction : Int) (velocity : ℚ) (current_time_us : Int)
  | stop
  | shutdown
deriving DecidableEq, Repr

/-- Prefetch result (`threading/mod.rs`, `PrefetchResult`). -/
inductive PrefetchResult where
  | frame (pts_us : Int)
  | stopped
  | error (msg : String)
deriving DecidableEq, Repr

/-- A spawned prefetch worker thread.  `generation` / `index` identify the
`JoinHandle` (which start call spawned it, and its index `i` in that call);
`ffmpeg_ctx` is the worker's own lazily created decode-engine handle
(`threading/mod.rs:234`, `let mut ffmpeg_ctx: Option<FFmpegContext> = None`),
never shared with any other worker. -/
structure Worker where
  generation : Nat
  index : Nat
  ffmpeg_ctx : Option Unit
deriving DecidableEq, Repr

/-- Prefetch manager state (`threading/mod.rs`, `PrefetchManager`).  The
crossbeam command channel is modelled as a FIFO queue of commands; each
message in it is consumed by exactly one receiver (crossbeam channels are
point-to-point MPMC queues, not broadcast).  `generation` counts completed
`start` calls, tagging worker handles. -/
structure PrefetchManager where
  thread_count : Nat
  channel : List PrefetchCommand
  workers : List Worker
  is_running : Bool
  direction : Int
  generation : Nat
deriving DecidableEq, Repr

namespace PrefetchManager

/-- `PrefetchManager::new`. -/
def new (thread_count : Nat) : PrefetchManager :=
  { thread_count := thread_count
    channel := []
    workers := []
    is_running := false
    direction := 0
    generation := 0 }

/-- `PrefetchManager::stop` (`threading/mod.rs:189-207`): no-op when not
running; otherwise clears the running flag and direction, sends one `Stop`
command per worker thread, and joins (drains) every worker handle.  In this
sequential model a join always completes, with the dying worker consuming
one of the `Stop` commands, so the `Stop` messages are consumed together
with the joined workers. -/
def stop (s : PrefetchManager) : PrefetchManager :=
  if !s.is_running then s
  else
    { s with is_running := false
             direction := 0
             workers := [] }

/-- `PrefetchManager::start` (`threading/mod.rs:154-186`): first performs a
full `stop`, then sets direction and the running flag, spawns exactly
`thread_count` fresh workers (each with its own empty decode-engine slot),
and finally sends one `Start` command on the shared channel. -/
def start (s : PrefetchManager) (direction : Int) (velocity : ℚ)
    (current_time_us : Int) : PrefetchManager :=
  let s0 := stop s
  let s1 := { s0 with direction := direction
                      is_running := true
                      generation := s0.generation + 1 }
  let spawned := (List.range s1.thread_count).map
    (fun i => { generation := s1.generation, index := i, ffmpeg_ctx := none : Worker })
  { s1 with workers := s1.workers ++ spawned
            channel := s1.channel ++
              [PrefetchCommand.start direction velocity current_time_us] }

/-- Whether a command is a `Start`. -/
def isStart : PrefetchCommand → Bool
  | .start _ _ _ => true
  | _ => false

/-- Number of `Start` commands sitting in a channel. -/
def countStarts (msgs : List PrefetchCommand) : Nat :=
  (msgs.filter isStart).length

/-- Channel delivery: an assignment `g` of each queued message to the worker
that consumes it (every message is consumed by exactly one worker — crossbeam
channels are point-to-point).  Worker `w` receives and acts on the `Start`
command iff some `Start` message is assigned to it. -/
def deliversStartTo (msgs : List PrefetchCommand) (n : Nat)
    (g : Fin msgs.length → Fin n) (w : Fin n) : Prop :=
  ∃ i : Fin msgs.length, isStart (msgs.get i) = true ∧ g i = w

instance (msgs : List PrefetchCommand) (n : Nat) (g : Fin msgs.length → Fin n)
    (w : Fin n) : Decidable (deliversStartTo msgs n g w) := by
  unfold deliversStartTo; infer_instance

end PrefetchManager

/-! ### Per-worker prefetch cycle (`threading/mod.rs:276-352`)

The decode engine (`FFmpegContext::seek_precise`, an FFI boundary around
FFmpeg) is modelled as an oracle `decode : Int → DecodeOutcome` giving, for a
target time, either a decoded frame (`Ok(Some(frame))`), no frame
(`Ok(None)`, end of stream), or a decode error (`Err(_)`). -/

/-- Outcome of `ctx.seek_precise(target_time)`. -/
inductive DecodeOutcome where
  | ok (frame : VideoFrame)
  | noFrame
  | err (msg : String)

/-- The frame-duration computation at `threading/mod.rs:277-281` (and its
twin inside `seek_precise`): `1_000_000 / frame_rate` µs, `33333` when the
frame rate is not positive.  `frame_rate` is `f64`; the division result is
truncated by the `as i64` cast, modelled as the rational floor. -/
def frameDurationUs (frame_rate : ℚ) : Int :=
  if 0 < frame_rate then ⌊(1000000 : ℚ) / frame_rate⌋ else 33333

/-- The throttle computation at `threading/mod.rs:348`:
`let sleep_ms = (100.0 / velocity.abs().max(0.5)) as u64` — the `as u64`
cast truncates the quotient. -/
def sleepMsOf (velocity : ℚ) : Nat :=
  (⌊(100 : ℚ) / max |velocity| (1/2)⌋).toNat

/-- The sleep actually performed between decoded frames
(`threading/mod.rs:349-351`): with `sleep_ms = sleepMsOf velocity` the worker
sleeps `sleep_ms` milliseconds only when `sleep_ms > 0 && sleep_ms < 100`,
and otherwise does not sleep at all (modelled as a zero-length sleep). -/
def throttleSleepMs (velocity : ℚ) : Nat :=
  if 0 < sleepMsOf velocity ∧ sleepMsOf velocity < 100 then sleepMsOf velocity
  else 0

/-- One activation's prefetch loop (`threading/mod.rs:288-352`), run after a
worker receives `Start{direction, velocity, current_time}`.  Fuel-indexed
model of the `while` loop (the loop variables are `target_time` and
`frames_decoded`; the shared cache is threaded through since the loop both
reads it — the skip-if-cached check uses `Cache::get`, which can promote —
and inserts decoded frames into L2/L3).  Returns the emitted
`PrefetchResult::Frame` pts values together with the final cache.  The
stop-command check is modelled by the caller choosing a fuel no larger than
the iterations actually run; an interrupted run is a prefix, emitting a
subset of these frames. -/
def prefetchLoop (decode : Int → DecodeOutcome) (direction : Int)
    (frame_duration_us duration_us : Int) (max_prefetch_frames : Nat) :
    Nat → Int → Nat → Cache → List Int × Cache
  | 0, _, _, cache => ([], cache)
  | fuel + 1, target_time, frames_decoded, cache =>
      if frames_decoded < max_prefetch_frames then
        let target := target_time + direction * frame_duration_us
        if target < 0 ∨ target > duration_us then ([], cache)
        else
          let looked := cache.get target (frame_duration_us / 2)
          if looked.1.isSome then
            prefetchLoop decode direction frame_duration_us duration_us
              max_prefetch_frames fuel target frames_decoded looked.2
          else
            match decode target with
            | .ok frame =>
                let cache1 :=
                  if frame.is_keyframe then looked.2.insert_l2 frame.pts_us frame
                  else looked.2
                let cache2 := cache1.insert_l3 frame.pts_us frame
                let next := prefetchLoop decode direction frame_duration_us
                  duration_us max_prefetch_frames fuel target
                  (frames_decoded + 1) cache2
                (frame.pts_us :: next.1, next.2)
            | .noFrame =>
                prefetchLoop decode direction frame_duration_us duration_us
                  max_prefetch_frames fuel target frames_decoded looked.2
            | .err _ =>
                prefetchLoop decode direction frame_duration_us duration_us
                  max_prefetch_frames fuel target frames_decoded looked.2
      else ([], cache)

/-- The whole prefetch cycle of one `Start` activation: the loop starting
from the playhead `current_time_us` with `frames_decoded = 0` and
`max_prefetch_frames = 30` (`threading/mod.rs:284-286`). -/
def prefetchCycle (decode : Int → DecodeOutcome) (direction : Int)
    (frame_rate : ℚ) (duration_us : Int) (current_time_us : Int) (fuel : Nat)
    (cache : Cache) : List Int × Cache :=
  prefetchLoop decode direction (frameDurationUs frame_rate) duration_us 30
    fuel current_time_us 0 cache

/-- Every key of the map is recorded in the order queue.  All reachable cache
tiers satisfy this: a key enters a tier only through `insertTier`, which also
pushes it on the order queue. -/
def covered (m : FrameMap) (order : List Int) : Prop :=
  ∀ kv ∈ m, kv.1 ∈ order

/-- The map's keys are pairwise distinct (the `HashMap` representation
invariant of the association-list model). -/
def keysNodup (m : FrameMap) : Prop :=
  (FrameMap.keys m).Nodup

/-- The representation invariant of the whole cache state. -/
def cacheInv (s : Cache) : Prop :=
  keysNodup s.l1 ∧ keysNodup s.l2 ∧ keysNodup s.l3 ∧
  covered s.l1 s.l1_order ∧ covered s.l2 s.l2_order ∧ covered s.l3 s.l3_order

/-- Tier sizes within the configured capacities. -/
def sizesOk (s : Cache) : Prop :=
  s.l1.length ≤ s.config.l1_capacity ∧
  s.l2.length ≤ s.config.l2_capacity ∧
  s.l3.length ≤ s.config.l3_capacity

instance (m : FrameMap) (order : List Int) : Decidable (covered m order) := by
  unfold covered
  infer_instance

instance (m : FrameMap) : Decidable (keysNodup m) := by
  unfold keysNodup
  infer_instance

instance (s : Cache) : Decidable (cacheInv s) := by
  unfold cacheInv
  infer_instance

instance (s : Cache) : Decidable (sizesOk s) := by
  unfold sizesOk
  infer_instance

/-- Frame fixture (mirrors `test_frame` / `test_keyframe` in the source's
test module). -/
def testFrame (pts_us : Int) (keyframe : Bool) : VideoFrame :=
  { data := [0], width := 100, height := 100, stride := 400,
    pts_us := pts_us, duration_us := 16666, is_keyframe := keyframe,
    frame_number := 0, pixel_format := .bgra }

/-- A configuration with all capacities 1. -/
def cfgOne : CacheConfig :=
  { l1_capacity := 1, l2_capacity := 1, l3_capacity := 1, enable_prefetch := true }

/-- A configuration with all capacities 2. -/
def cfgTwo : CacheConfig :=
  { l1_capacity := 2, l2_capacity := 2, l3_capacity := 2, enable_prefetch := true }

/-- The default configuration (`CacheConfig::default`). -/
def cfgDefault : CacheConfig :=
  { l1_capacity := 30, l2_capacity := 100, l3_capacity := 500,
    enable_prefetch := true }

/-- A concrete two-entry tier map fixture at capacity 2. -/
def fixMap : FrameMap :=
  [(10, { frame := testFrame 10 false, access_count := 1 }),
   (20, { frame := testFrame 20 false, access_count := 1 })]

/-- A demo decode-engine oracle for witnesses: returns a frame exactly at the
requested target when it lies inside a 1-second stream, end-of-stream
otherwise. -/
def demoDecode : Int → DecodeOutcome := fun t =>
  if 0 ≤ t ∧ t ≤ 1000000 then DecodeOutcome.ok (testFrame t false)
  else DecodeOutcome.noFrame

/-! ## Lemmas about the association-list map -/

namespace FrameMap

theorem mapGet_eq_none_of_not_mem (m : FrameMap) (k : Int) (h : k ∉ keys m) :
    mapGet m k = none := by
  induction m with
  | nil => rfl
  | cons kv rest ih =>
      simp only [keys, List.map_cons, List.mem_cons, not_or] at h
      simp only [mapGet, List.find?_cons]
      have hne : (decide (kv.1 = k)) = false := by
        simp only [decide_eq_false_iff_not]
        exact fun hh => h.1 hh.symm
      rw [hne]
      exact ih (by simpa [keys] using h.2)

theorem not_mem_keys_mapRemove (m : FrameMap) (k : Int) :
    k ∉ keys (mapRemove m k) := by
  simp only [keys, mapRemove, List.mem_map]
  rintro ⟨kv, hkv, rfl⟩
  have := List.of_mem_filter hkv
  simp at this

theorem keys_mapRemove_sublist (m : FrameMap) (k : Int) :
    (keys (mapRemove m k)).Sublist (keys m) := by
  simp only [keys, mapRemove]
  exact List.Sublist.map _ (List.filter_sublist m)

theorem mem_mapRemove (m : FrameMap) (k : Int) (kv : Int × CacheEntry) :
    kv ∈ mapRemove m k ↔ kv ∈ m ∧ kv.1 ≠ k := by
  simp [mapRemove]

theorem mapGet_mapRemove_self (m : FrameMap) (k : Int) :
    mapGet (mapRemove m k) k = none :=
  mapGet_eq_none_of_not_mem _ _ (not_mem_keys_mapRemove m k)

theorem mapRemove_cons_of_ne (kv : Int × CacheEntry) (rest : FrameMap)
    (k : Int) (h : kv.1 ≠ k) :
    mapRemove (kv :: rest) k = kv :: mapRemove rest k := by
  simp only [mapRemove, List.filter_cons]
  have hc : (decide (kv.1 ≠ k)) = true := by simp [h]
  rw [hc]
  simp

theorem mapRemove_cons_of_eq (kv : Int × CacheEntry) (rest : FrameMap)
    (k : Int) (h : kv.1 = k) :
    mapRemove (kv :: rest) k = mapRemove rest k := by
  simp only [mapRemove, List.filter_cons]
  have hc : (decide (kv.1 ≠ k)) = false := by simp [h]
  rw [hc]
  simp

theorem mapGet_mapRemove_ne (m : FrameMap) (k k' : Int) (h : k' ≠ k) :
    mapGet (mapRemove m k) k' = mapGet m k' := by
  induction m with
  | nil => rfl
  | cons kv rest ih =>
      by_cases hk : kv.1 = k
      · rw [mapRemove_cons_of_eq kv rest k hk, ih]
        have hb : (decide (kv.1 = k')) = false := by
          simp only [decide_eq_false_iff_not]
          rw [hk]
          exact Ne.symm h
        simp [mapGet, List.find?_cons, hb]
      · rw [mapRemove_cons_of_ne kv rest k hk]
        by_cases hk' : kv.1 = k'
        · simp [mapGet, List.find?_cons, hk']
        · have hb : (decide (kv.1 = k')) = false := by simp [hk']
          simp only [mapGet, List.find?_cons, hb]
          exact ih

theorem mapGet_mapInsert_self (m : FrameMap) (k : Int) (v : CacheEntry) :
    mapGet (mapInsert m k v) k = some v := by
  have hnone : (mapRemove m k).find? (fun kv => kv.1 = k) = none := by
    have := mapGet_mapRemove_self m k
    unfold mapGet at this
    cases hf : (mapRemove m k).find? (fun kv => kv.1 = k) with
    | none => rfl
    | some kv => rw [hf] at this; simp at this
  simp [mapInsert, mapGet, List.find?_append, hnone]

theorem mapGet_mapInsert_ne (m : FrameMap) (k k' : Int) (v : CacheEntry)
    (h : k' ≠ k) : mapGet (mapInsert m k v) k' = mapGet m k' := by
  have h2 : (decide (k = k')) = false := by
    simp only [decide_eq_false_iff_not]
    exact Ne.symm h
  have hrm := mapGet_mapRemove_ne m k k' h
  unfold mapGet at hrm ⊢
  rw [mapInsert, List.find?_append]
  cases hf : (mapRemove m k).find? (fun kv => kv.1 = k') with
  | none =>
      rw [hf] at hrm
      simp only [Option.none_or, List.find?_cons, List.find?_nil, h2]
      simpa using hrm
  | some kv =>
      rw [hf] at hrm
      simpa using hrm

theorem length_mapRemove_le (m : FrameMap) (k : Int) :
    (mapRemove m k).length ≤ m.length :=
  List.length_filter_le _ m

theorem mapRemove_eq_self_of_not_mem (m : FrameMap) (k : Int)
    (h : k ∉ keys m) : mapRemove m k = m := by
  induction m with
  | nil => rfl
  | cons kv rest ih =>
      simp only [keys, List.map_cons, List.mem_cons, not_or] at h
      rw [mapRemove_cons_of_ne kv rest k (fun hh => h.1 hh.symm),
        ih (by simpa [keys] using h.2)]

theorem length_mapRemove_of_mem (m : FrameMap) (k : Int)
    (hnd : keysNodup m) (h : k ∈ keys m) :
    (mapRemove m k).length + 1 = m.length := by
  induction m with
  | nil => simp [keys] at h
  | cons kv rest ih =>
      simp only [keys, List.map_cons, List.mem_cons] at h
      have hnd' : keysNodup rest := by
        have := hnd
        simp only [keysNodup, keys, List.map_cons, List.nodup_cons] at this
        exact this.2
      by_cases hk : kv.1 = k
      · have hnotin : k ∉ keys rest := by
          have := hnd
          simp only [keysNodup, keys, List.map_cons, List.nodup_cons] at this
          rw [← hk]
          exact this.1
        rw [mapRemove_cons_of_eq kv rest k hk,
          mapRemove_eq_self_of_not_mem rest k hnotin]
        simp
      · have hmem : k ∈ keys rest := by
          rcases h with h | h
          · exact absurd h.symm hk
          · simpa [keys] using h
        rw [mapRemove_cons_of_ne kv rest k hk]
        simp only [List.length_cons]
        have := ih hnd' hmem
        omega


theorem keys_mapInsert (m : FrameMap) (k : Int) (v : CacheEntry) :
    keys (mapInsert m k v) = keys (mapRemove m k) ++ [k] := by
  simp [mapInsert, keys]

theorem keysNodup_mapRemove (m : FrameMap) (k : Int) (h : keysNodup m) :
    keysNodup (mapRemove m k) :=
  (keys_mapRemove_sublist m k).nodup h

theorem keysNodup_mapInsert (m : FrameMap) (k : Int) (v : CacheEntry)
    (h : keysNodup m) : keysNodup (mapInsert m k v) := by
  have h1 := keysNodup_mapRemove m k h
  have h2 := not_mem_keys_mapRemove m k
  rw [keysNodup, keys_mapInsert]
  rw [List.nodup_append]
  refine ⟨h1, List.nodup_singleton k, ?_⟩
  intro a ha hb
  simp only [List.mem_singleton] at hb
  subst hb
  exact h2 ha

theorem length_mapInsert_le (m : FrameMap) (k : Int) (v : CacheEntry) :
    (mapInsert m k v).length ≤ m.length + 1 := by
  simp only [mapInsert, List.length_append, List.length_cons, List.length_nil]
  have := length_mapRemove_le m k
  omega

end FrameMap

open FrameMap

/-! ## Eviction-loop and tier-insert lemmas -/

theorem covered_nil_imp (m : FrameMap) (h : covered m []) : m = [] := by
  cases m with
  | nil => rfl
  | cons kv rest => exact absurd (h kv (by simp)) (by simp)

theorem covered_mapRemove_tail (m : FrameMap) (o : Int) (rest : List Int)
    (h : covered m (o :: rest)) : covered (mapRemove m o) rest := by
  intro kv hkv
  rw [mem_mapRemove] at hkv
  have hmem := h kv hkv.1
  rcases List.mem_cons.mp hmem with h1 | h1
  · exact absurd h1 hkv.2
  · exact h1

theorem evictLoop_length_lt (cap : Nat) (m : FrameMap) (order : List Int)
    (hcap : 1 ≤ cap) (hcov : covered m order) :
    (evictLoop cap m order).1.length < cap := by
  induction order generalizing m with
  | nil =>
      have hm := covered_nil_imp m hcov
      subst hm
      simpa [evictLoop] using hcap
  | cons o rest ih =>
      simp only [evictLoop]
      by_cases hlen : cap ≤ m.length
      · rw [if_pos hlen]
        exact ih (mapRemove m o) (covered_mapRemove_tail m o rest hcov)
      · rw [if_neg hlen]
        simpa using Nat.lt_of_not_le hlen

theorem covered_evictLoop (cap : Nat) (m : FrameMap) (order : List Int)
    (hcov : covered m order) :
    covered (evictLoop cap m order).1 (evictLoop cap m order).2 := by
  induction order generalizing m with
  | nil =>
      have hm := covered_nil_imp m hcov
      subst hm
      intro kv hkv
      simp [evictLoop] at hkv
  | cons o rest ih =>
      simp only [evictLoop]
      by_cases hlen : cap ≤ m.length
      · rw [if_pos hlen]
        exact ih (mapRemove m o) (covered_mapRemove_tail m o rest hcov)
      · rw [if_neg hlen]
        exact hcov

theorem keysNodup_evictLoop (cap : Nat) (m : FrameMap) (order : List Int)
    (hnd : keysNodup m) : keysNodup (evictLoop cap m order).1 := by
  induction order generalizing m with
  | nil => simpa [evictLoop] using hnd
  | cons o rest ih =>
      simp only [evictLoop]
      by_cases hlen : cap ≤ m.length
      · rw [if_pos hlen]
        exact ih (mapRemove m o) (keysNodup_mapRemove m o hnd)
      · rw [if_neg hlen]
        exact hnd

theorem evictLoop_of_lt (cap : Nat) (m : FrameMap) (order : List Int)
    (h : m.length < cap) : evictLoop cap m order = (m, order) := by
  cases order with
  | nil => rfl
  | cons o rest =>
      simp only [evictLoop]
      rw [if_neg (by omega)]

theorem covered_insertTier (cap : Nat) (k : Int) (f : VideoFrame)
    (m : FrameMap) (order : List Int) (hcov : covered m order) :
    covered (insertTier cap k f (m, order)).1 (insertTier cap k f (m, order)).2 := by
  intro kv hkv
  have hcov2 := covered_evictLoop cap m order hcov
  simp only [insertTier, mapInsert] at hkv ⊢
  rcases List.mem_append.mp hkv with h1 | h1
  · rw [mem_mapRemove] at h1
    have := hcov2 kv h1.1
    exact List.mem_append.mpr (Or.inl this)
  · simp only [List.mem_singleton] at h1
    subst h1
    exact List.mem_append.mpr (Or.inr (by simp))

theorem keysNodup_insertTier (cap : Nat) (k : Int) (f : VideoFrame)
    (m : FrameMap) (order : List Int) (hnd : keysNodup m) :
    keysNodup (insertTier cap k f (m, order)).1 := by
  simp only [insertTier]
  exact keysNodup_mapInsert _ k _ (keysNodup_evictLoop cap m order hnd)

theorem insertTier_length_le (cap : Nat) (k : Int) (f : VideoFrame)
    (m : FrameMap) (order : List Int) (hcap : 1 ≤ cap) (hcov : covered m order) :
    (insertTier cap k f (m, order)).1.length ≤ cap := by
  have h1 := evictLoop_length_lt cap m order hcap hcov
  have h2 := length_mapInsert_le (evictLoop cap m order).1 k
    { frame := f, access_count := 1 }
  simp only [insertTier]
  omega

theorem insertTier_at_capacity (cap : Nat) (k o : Int) (f : VideoFrame)
    (m : FrameMap) (rest : List Int)
    (hcap : 1 ≤ cap) (hnd : keysNodup m) (hfull : m.length = cap)
    (ho : o ∈ keys m) :
    insertTier cap k f (m, o :: rest) =
      (mapInsert (mapRemove m o) k { frame := f, access_count := 1 },
       rest ++ [k]) := by
  have hlt : (mapRemove m o).length < cap := by
    have := length_mapRemove_of_mem m o hnd ho
    omega
  have h1 : evictLoop cap m (o :: rest) = (mapRemove m o, rest) := by
    simp only [evictLoop]
    rw [if_pos (le_of_eq hfull.symm)]
    exact evictLoop_of_lt cap (mapRemove m o) rest hlt
  simp only [insertTier, h1]

/-! ## Cache invariant preservation -/

theorem config_insert_l1 (s : Cache) (p : Int) (f : VideoFrame) :
    (s.insert_l1 p f).config = s.config := rfl

theorem config_insert_l2 (s : Cache) (p : Int) (f : VideoFrame) :
    (s.insert_l2 p f).config = s.config := by
  unfold Cache.insert_l2
  split <;> rfl

theorem config_insert_l3 (s : Cache) (p : Int) (f : VideoFrame) :
    (s.insert_l3 p f).config = s.config := rfl

theorem config_applyOp (s : Cache) (op : CacheOp) :
    (applyOp s op).config = s.config := by
  cases op with
  | insL1 p f => exact config_insert_l1 s p f
  | insL2 p f => exact config_insert_l2 s p f
  | insL3 p f => exact config_insert_l3 s p f

theorem cacheInv_applyOp (s : Cache) (op : CacheOp) (h : cacheInv s) :
    cacheInv (applyOp s op) := by
  obtain ⟨hn1, hn2, hn3, hc1, hc2, hc3⟩ := h
  cases op with
  | insL1 p f =>
      exact ⟨keysNodup_insertTier _ p f s.l1 s.l1_order hn1, hn2, hn3,
        covered_insertTier _ p f s.l1 s.l1_order hc1, hc2, hc3⟩
  | insL2 p f =>
      simp only [applyOp, Cache.insert_l2]
      split
      · exact ⟨hn1, hn2, hn3, hc1, hc2, hc3⟩
      · exact ⟨hn1, keysNodup_insertTier _ p f s.l2 s.l2_order hn2, hn3,
          hc1, covered_insertTier _ p f s.l2 s.l2_order hc2, hc3⟩
  | insL3 p f =>
      exact ⟨hn1, hn2, keysNodup_insertTier _ p f s.l3 s.l3_order hn3,
        hc1, hc2, covered_insertTier _ p f s.l3 s.l3_order hc3⟩

theorem sizesOk_applyOp (s : Cache) (op : CacheOp)
    (hcap1 : 1 ≤ s.config.l1_capacity) (hcap2 : 1 ≤ s.config.l2_capacity)
    (hcap3 : 1 ≤ s.config.l3_capacity)
    (hinv : cacheInv s) (hs : sizesOk s) : sizesOk (applyOp s op) := by
  obtain ⟨hn1, hn2, hn3, hc1, hc2, hc3⟩ := hinv
  obtain ⟨hs1, hs2, hs3⟩ := hs
  cases op with
  | insL1 p f =>
      exact ⟨insertTier_length_le _ p f s.l1 s.l1_order hcap1 hc1, hs2, hs3⟩
  | insL2 p f =>
      simp only [applyOp, Cache.insert_l2]
      split
      · exact ⟨hs1, hs2, hs3⟩
      · exact ⟨hs1, insertTier_length_le _ p f s.l2 s.l2_order hcap2 hc2, hs3⟩
  | insL3 p f =>
      exact ⟨hs1, hs2, insertTier_length_le _ p f s.l3 s.l3_order hcap3 hc3⟩

theorem foldl_applyOp_ok (ops : List CacheOp) (s : Cache)
    (hcap1 : 1 ≤ s.config.l1_capacity) (hcap2 : 1 ≤ s.config.l2_capacity)
    (hcap3 : 1 ≤ s.config.l3_capacity)
    (hinv : cacheInv s) (hs : sizesOk s) :
    cacheInv (ops.foldl applyOp s) ∧ sizesOk (ops.foldl applyOp s) := by
  induction ops generalizing s with
  | nil => exact ⟨hinv, hs⟩
  | cons op rest ih =>
      have hcfg := config_applyOp s op
      simp only [List.foldl_cons]
      exact ih (applyOp s op) (hcfg ▸ hcap1) (hcfg ▸ hcap2) (hcfg ▸ hcap3)
        (cacheInv_applyOp s op hinv)
        (sizesOk_applyOp s op hcap1 hcap2 hcap3 hinv hs)

theorem cacheInv_new (config : CacheConfig) : cacheInv (Cache.new config) := by
  refine ⟨?_, ?_, ?_, ?_, ?_, ?_⟩ <;> first
    | exact List.nodup_nil
    | intro kv hkv; simp [Cache.new] at hkv

theorem sizesOk_new (config : CacheConfig) : sizesOk (Cache.new config) := by
  exact ⟨Nat.zero_le _, Nat.zero_le _, Nat.zero_le _⟩

theorem runOps_ok (config : CacheConfig) (ops : List CacheOp)
    (hcap1 : 1 ≤ config.l1_capacity) (hcap2 : 1 ≤ config.l2_capacity)
    (hcap3 : 1 ≤ config.l3_capacity) :
    cacheInv (runOps config ops) ∧ sizesOk (runOps config ops) :=
  foldl_applyOp_ok ops (Cache.new config) hcap1 hcap2 hcap3
    (cacheInv_new config) (sizesOk_new config)

theorem config_foldl_applyOp (ops : List CacheOp) (s : Cache) :
    (ops.foldl applyOp s).config = s.config := by
  induction ops generalizing s with
  | nil => rfl
  | cons op rest ih =>
      simp only [List.foldl_cons]
      rw [ih (applyOp s op), config_applyOp]

theorem config_runOps (config : CacheConfig) (ops : List CacheOp) :
    (runOps config ops).config = config :=
  config_foldl_applyOp ops (Cache.new config)

/-- C1 (amended): for every cache configuration (tier capacities positive, as
`CacheConfig` requires) and every sequence of `insert_l1`/`insert_l2`/
`insert_l3` calls, each tier's entry count never exceeds its configured
capacity — the eviction loop runs before the store and leaves the tier
strictly below capacity, so the bound is not even transiently exceeded — and
an insert into a tier already at capacity whose oldest order-queue entry `o`
is a live key removes exactly that single oldest-inserted key before storing
the new entry: when the newly inserted key differs from `o`, key `o` is
absent immediately afterwards, and the newly inserted key is present. -/
theorem C1_tier_capacity_and_fifo_eviction
    (config : CacheConfig) (ops : List CacheOp)
    (hcap1 : 1 ≤ config.l1_capacity) (hcap2 : 1 ≤ config.l2_capacity)
    (hcap3 : 1 ≤ config.l3_capacity)
    (cap : Nat) (m : FrameMap) (o : Int) (rest : List Int) (k : Int)
    (f : VideoFrame)
    (hcap : 1 ≤ cap) (hnd : keysNodup m) (hcov : covered m (o :: rest))
    (hfull : m.length = cap) (ho : o ∈ keys m) (hne : k ≠ o) :
    ((runOps config ops).l1.length ≤ config.l1_capacity ∧
     (runOps config ops).l2.length ≤ config.l2_capacity ∧
     (runOps config ops).l3.length ≤ config.l3_capacity) ∧
    ((evictLoop cap m (o :: rest)).1.length < cap ∧
     mapGet (insertTier cap k f (m, o :: rest)).1 o = none ∧
     mapGet (insertTier cap k f (m, o :: rest)).1 k =
       some { frame := f, access_count := 1 } ∧
     (insertTier cap k f (m, o :: rest)).1.length ≤ cap) := by
  constructor
  · have h := (runOps_ok config ops hcap1 hcap2 hcap3).2
    have hcfg := config_runOps config ops
    rw [sizesOk, hcfg] at h
    exact h
  · have heq := insertTier_at_capacity cap k o f m rest hcap hnd hfull ho
    refine ⟨evictLoop_length_lt cap m (o :: rest) hcap hcov, ?_, ?_, ?_⟩
    · rw [heq]
      rw [mapGet_mapInsert_ne _ k o _ (Ne.symm hne)]
      exact mapGet_mapRemove_self m o
    · rw [heq]
      exact mapGet_mapInsert_self _ k _
    · exact insertTier_length_le cap k f m (o :: rest) hcap hcov

/-- C1 witness: a concrete run of the amended statement — configuration with
capacities 2, three L1 inserts, and an at-capacity tier `fixMap` with order
queue `[10, 20]` receiving key 30. -/
theorem C1_tier_capacity_and_fifo_eviction_witness :
    ((runOps cfgTwo [CacheOp.insL1 0 (testFrame 0 false),
        CacheOp.insL1 1 (testFrame 1 false),
        CacheOp.insL1 2 (testFrame 2 false)]).l1.length ≤ cfgTwo.l1_capacity ∧
      (runOps cfgTwo [CacheOp.insL1 0 (testFrame 0 false),
        CacheOp.insL1 1 (testFrame 1 false),
        CacheOp.insL1 2 (testFrame 2 false)]).l2.length ≤ cfgTwo.l2_capacity ∧
      (runOps cfgTwo [CacheOp.insL1 0 (testFrame 0 false),
        CacheOp.insL1 1 (testFrame 1 false),
        CacheOp.insL1 2 (testFrame 2 false)]).l3.length ≤ cfgTwo.l3_capacity) ∧
     ((evictLoop 2 fixMap [10, 20]).1.length < 2 ∧
      mapGet (insertTier 2 30 (testFrame 30 false) (fixMap, [10, 20])).1 10 =
        none ∧
      mapGet (insertTier 2 30 (testFrame 30 false) (fixMap, [10, 20])).1 30 =
        some { frame := testFrame 30 false, access_count := 1 } ∧
      (insertTier 2 30 (testFrame 30 false) (fixMap, [10, 20])).1.length ≤ 2) :=
  C1_tier_capacity_and_fifo_eviction cfgTwo
    [CacheOp.insL1 0 (testFrame 0 false), CacheOp.insL1 1 (testFrame 1 false),
     CacheOp.insL1 2 (testFrame 2 false)]
    (by decide) (by decide) (by decide)
    2 fixMap 10 [20] 30 (testFrame 30 false)
    (by decide) (by decide) (by decide) (by decide) (by decide) (by decide)

/-- C1 counterexample: with `l1_capacity = 1`, inserting key 5 and then
inserting key 5 again is an insert into a tier already at capacity whose
single oldest-inserted key (by insertion order) is 5; immediately afterwards
the oldest-inserted key is still present, refuting the claim that it is
absent after every insert into a tier at capacity. -/
theorem C1_counterexample :
    ((Cache.new cfgOne).insert_l1 5 (testFrame 5 false)).l1.length =
      cfgOne.l1_capacity ∧
    ((Cache.new cfgOne).insert_l1 5 (testFrame 5 false)).l1_order = [5] ∧
    ¬ mapGet ((((Cache.new cfgOne).insert_l1 5 (testFrame 5 false)).insert_l1 5
        (testFrame 5 false)).l1) 5 = none := by
  decide

/-- C3: for every frame whose keyframe flag is false, `insert_l2` is a
complete no-op — the whole cache state (in particular L2's entry map, its
order queue, and every counter) is unchanged, and the operation is a total
function (no error, no panic). -/
theorem C3_insert_l2_non_keyframe_noop (s : Cache) (pts_us : Int)
    (f : VideoFrame) (h : f.is_keyframe = false) :
    s.insert_l2 pts_us f = s := by
  unfold Cache.insert_l2
  rw [h]
  rfl

/-- C3 witness: inserting a concrete non-keyframe at pts 16666 into L2 of a
fresh default-config cache changes nothing. -/
theorem C3_insert_l2_non_keyframe_noop_witness :
    (testFrame 16666 false).is_keyframe = false ∧
    (Cache.new cfgDefault).insert_l2 16666 (testFrame 16666 false) =
      Cache.new cfgDefault :=
  ⟨rfl, C3_insert_l2_non_keyframe_noop (Cache.new cfgDefault) 16666
    (testFrame 16666 false) rfl⟩

/-- C8: after `clear`, all three tier maps and all three order queues are
empty, a subsequent `statistics` call reports zero entries in every tier (and
zero bytes), while the cumulative hit counters and the miss counter keep
exactly their values from before the clear. -/
theorem C8_clear_empties_tiers_keeps_counters (s : Cache) :
    (s.clear.l1 = [] ∧ s.clear.l2 = [] ∧ s.clear.l3 = [] ∧
     s.clear.l1_order = [] ∧ s.clear.l2_order = [] ∧ s.clear.l3_order = []) ∧
    s.clear.statistics =
      { l1_entries := 0, l2_entries := 0, l3_entries := 0,
        l1_hit_count := s.l1_hits, l2_hit_count := s.l2_hits,
        l3_hit_count := s.l3_hits, miss_count := s.misses,
        memory_usage_bytes := 0 } :=
  ⟨⟨rfl, rfl, rfl, rfl, rfl, rfl⟩, rfl⟩

/-! ## Lookup (`find_in_cache`) lemmas -/

theorem minByKey_go {α : Type} (f : α → Nat) (l : List α) (b : α) :
    ∃ a, l.foldl
        (fun acc x =>
          match acc with
          | none => some x
          | some c => if f x < f c then some x else some c) (some b) = some a ∧
      (a = b ∨ a ∈ l) ∧ f a ≤ f b ∧ ∀ c ∈ l, f a ≤ f c := by
  induction l generalizing b with
  | nil => exact ⟨b, rfl, Or.inl rfl, le_refl _, by simp⟩
  | cons x xs ih =>
      simp only [List.foldl_cons]
      by_cases h : f x < f b
      · obtain ⟨a, ha, hmem, hle, hall⟩ := ih x
        refine ⟨a, ?_, ?_, ?_, ?_⟩
        · rw [← ha]
          congr 1
          simp [h]
        · rcases hmem with h1 | h1
          · exact Or.inr (by simp [h1])
          · exact Or.inr (by simp [h1])
        · exact le_trans hle (le_of_lt h)
        · intro c hc
          rcases List.mem_cons.mp hc with h1 | h1
          · rw [h1]; exact hle
          · exact hall c h1
      · obtain ⟨a, ha, hmem, hle, hall⟩ := ih b
        refine ⟨a, ?_, ?_, hle, ?_⟩
        · rw [← ha]
          congr 1
          simp [h]
        · rcases hmem with h1 | h1
          · exact Or.inl h1
          · exact Or.inr (by simp [h1])
        · intro c hc
          rcases List.mem_cons.mp hc with h1 | h1
          · rw [h1]
            exact le_trans hle (Nat.le_of_not_lt h)
          · exact hall c h1

theorem minByKey_cons_spec {α : Type} (f : α → Nat) (x : α) (xs : List α) :
    ∃ a, Cache.minByKey f (x :: xs) = some a ∧ a ∈ x :: xs ∧
      ∀ c ∈ x :: xs, f a ≤ f c := by
  unfold Cache.minByKey
  simp only [List.foldl_cons]
  obtain ⟨a, ha, hmem, hle, hall⟩ := minByKey_go f xs x
  refine ⟨a, ha, ?_, ?_⟩
  · rcases hmem with h1 | h1
    · simp [h1]
    · simp [h1]
  · intro c hc
    rcases List.mem_cons.mp hc with h1 | h1
    · rw [h1]; exact hle
    · exact hall c h1

theorem minByKey_nil {α : Type} (f : α → Nat) : Cache.minByKey f ([] : List α) = none :=
  rfl

theorem find_in_cache_exact (m : FrameMap) (ts tol : Int) (e : CacheEntry)
    (h : mapGet m ts = some e) : Cache.find_in_cache m ts tol = some e.frame := by
  unfold Cache.find_in_cache
  rw [h]

theorem find_in_cache_of_none (m : FrameMap) (ts tol : Int)
    (hget : mapGet m ts = none) :
    Cache.find_in_cache m ts tol =
      (Cache.minByKey (fun kv => (kv.1 - ts).natAbs)
        (m.filter (fun kv => ts - tol ≤ kv.1 ∧ kv.1 ≤ ts + tol))).map
        (fun kv => kv.2.frame) := by
  unfold Cache.find_in_cache
  rw [hget]

theorem out_of_range_not_filter (ts tol k : Int) (h : tol < |k - ts|) :
    ¬(ts - tol ≤ k ∧ k ≤ ts + tol) := by
  rcases lt_abs.mp h with h1 | h1 <;> omega

theorem find_in_cache_eq_none_of_out_of_range (m : FrameMap) (ts tol : Int)
    (hget : mapGet m ts = none) (hall : ∀ kv ∈ m, tol < |kv.1 - ts|) :
    Cache.find_in_cache m ts tol = none := by
  rw [find_in_cache_of_none m ts tol hget]
  have hfil : m.filter (fun kv => ts - tol ≤ kv.1 ∧ kv.1 ≤ ts + tol) = [] := by
    rw [List.filter_eq_nil_iff]
    intro kv hkv
    simp only [decide_eq_true_eq]
    exact out_of_range_not_filter ts tol kv.1 (hall kv hkv)
  rw [hfil, minByKey_nil]
  rfl

/-- C4: within each tier lookup of `get(ts, tol)`: an exactly stored key `ts`
is returned immediately; otherwise some stored entry whose key `k` lies in
`[ts - tol, ts + tol]` and minimizes `|k - ts|` is returned (and one is
returned whenever such a key exists); and when `ts` is not stored in any tier
and every stored key `k` of every tier has `|k - ts| > tol`, `get` returns
`None` and leaves the cache unchanged. -/
theorem C4_tolerance_matching_rule (m : FrameMap) (s : Cache) (ts tol : Int) :
    (∀ e, mapGet m ts = some e → Cache.find_in_cache m ts tol = some e.frame) ∧
    (mapGet m ts = none →
      ∀ f, Cache.find_in_cache m ts tol = some f →
        ∃ k e, (k, e) ∈ m ∧ e.frame = f ∧ ts - tol ≤ k ∧ k ≤ ts + tol ∧
          ∀ k' e', (k', e') ∈ m → ts - tol ≤ k' → k' ≤ ts + tol →
            (k - ts).natAbs ≤ (k' - ts).natAbs) ∧
    (mapGet m ts = none →
      (∃ kv ∈ m, ts - tol ≤ kv.1 ∧ kv.1 ≤ ts + tol) →
      (Cache.find_in_cache m ts tol).isSome = true) ∧
    ((mapGet s.l1 ts = none ∧ mapGet s.l2 ts = none ∧ mapGet s.l3 ts = none) →
      (∀ kv ∈ s.l1, tol < |kv.1 - ts|) → (∀ kv ∈ s.l2, tol < |kv.1 - ts|) →
      (∀ kv ∈ s.l3, tol < |kv.1 - ts|) →
      s.get ts tol = (none, s)) := by
  refine ⟨fun e h => find_in_cache_exact m ts tol e h, ?_, ?_, ?_⟩
  · intro hget f hfind
    rw [find_in_cache_of_none m ts tol hget] at hfind
    cases hfil : m.filter (fun kv => ts - tol ≤ kv.1 ∧ kv.1 ≤ ts + tol) with
    | nil => rw [hfil, minByKey_nil] at hfind; simp at hfind
    | cons x xs =>
        rw [hfil] at hfind
        obtain ⟨a, ha, hmem, hall⟩ := minByKey_cons_spec
          (fun kv => (kv.1 - ts).natAbs) x xs
        rw [ha] at hfind
        have hfind2 : a.2.frame = f := by simpa using hfind
        have hmem2 : a ∈ m.filter (fun kv => ts - tol ≤ kv.1 ∧ kv.1 ≤ ts + tol) := by
          rw [hfil]; exact hmem
        have hmem3 := List.mem_filter.mp hmem2
        have hrange : ts - tol ≤ a.1 ∧ a.1 ≤ ts + tol := by
          have := hmem3.2
          simpa using this
        refine ⟨a.1, a.2, hmem3.1, ?_, hrange.1, hrange.2, ?_⟩
        · exact hfind2
        · intro k' e' hk' h1 h2
          have hin : (k', e') ∈ m.filter
              (fun kv => ts - tol ≤ kv.1 ∧ kv.1 ≤ ts + tol) := by
            rw [List.mem_filter]
            exact ⟨hk', by simp [h1, h2]⟩
          rw [hfil] at hin
          exact hall (k', e') hin
  · intro hget hex
    rw [find_in_cache_of_none m ts tol hget]
    obtain ⟨kv, hkv, h1, h2⟩ := hex
    cases hfil : m.filter (fun kv => ts - tol ≤ kv.1 ∧ kv.1 ≤ ts + tol) with
    | nil =>
        exfalso
        have : kv ∈ m.filter (fun kv => ts - tol ≤ kv.1 ∧ kv.1 ≤ ts + tol) := by
          rw [List.mem_filter]
          exact ⟨hkv, by simp [h1, h2]⟩
        rw [hfil] at this
        simp at this
    | cons x xs =>
        obtain ⟨a, ha, _, _⟩ := minByKey_cons_spec
          (fun kv => (kv.1 - ts).natAbs) x xs
        rw [ha]
        rfl
  · intro hex h1 h2 h3
    have f1 := find_in_cache_eq_none_of_out_of_range s.l1 ts tol hex.1 h1
    have f2 := find_in_cache_eq_none_of_out_of_range s.l2 ts tol hex.2.1 h2
    have f3 := find_in_cache_eq_none_of_out_of_range s.l3 ts tol hex.2.2 h3
    unfold Cache.get
    rw [f1, f2, f3]

/-- C4 witness: the tier `fixMap` (keys 10 and 20) queried at 25 with
tolerance 10 yields a nearest-in-range hit, and a cache holding only key
5000 in L3 queried at 1000 with tolerance 500 yields a total miss with the
state unchanged. -/
theorem C4_tolerance_matching_rule_witness :
    (mapGet fixMap 25 = none ∧
     (Cache.find_in_cache fixMap 25 10).isSome = true) ∧
    ((Cache.new cfgTwo).insert_l3 5000 (testFrame 5000 false)).get 1000 500 =
      (none, (Cache.new cfgTwo).insert_l3 5000 (testFrame 5000 false)) := by
  constructor
  · constructor
    · decide
    · exact (C4_tolerance_matching_rule fixMap (Cache.new cfgTwo) 25 10).2.2.1
        (by decide) ⟨(20, { frame := testFrame 20 false, access_count := 1 }),
          by decide, by decide, by decide⟩
  · exact (C4_tolerance_matching_rule fixMap
      ((Cache.new cfgTwo).insert_l3 5000 (testFrame 5000 false)) 1000 500).2.2.2
      ⟨by decide, by decide, by decide⟩
      (by intro kv hkv; simp [Cache.new, Cache.insert_l3] at hkv)
      (by intro kv hkv; simp [Cache.new, Cache.insert_l3] at hkv)
      (by
        intro kv hkv
        have hl3 : ((Cache.new cfgTwo).insert_l3 5000 (testFrame 5000 false)).l3 =
            [(5000, { frame := testFrame 5000 false, access_count := 1 })] := by
          decide
        rw [hl3] at hkv
        simp only [List.mem_singleton] at hkv
        subst hkv
        decide)

/-! ## `get` contract lemmas -/

theorem mapGet_insert_l1 (s : Cache) (ts : Int) (f : VideoFrame) :
    mapGet (s.insert_l1 ts f).l1 ts =
      some { frame := f, access_count := 1 } := by
  unfold Cache.insert_l1
  exact mapGet_mapInsert_self _ ts _

theorem get_l1_hit (s : Cache) (ts tol : Int) (f : VideoFrame)
    (h : Cache.find_in_cache s.l1 ts tol = some f) :
    s.get ts tol = (some f, { s with l1_hits := s.l1_hits + 1 }) := by
  unfold Cache.get
  rw [h]

theorem get_l2_hit (s : Cache) (ts tol : Int) (f : VideoFrame)
    (h1 : Cache.find_in_cache s.l1 ts tol = none)
    (h2 : Cache.find_in_cache s.l2 ts tol = some f) :
    s.get ts tol =
      (some f, Cache.insert_l1 { s with l2_hits := s.l2_hits + 1 } ts f) := by
  unfold Cache.get
  rw [h1, h2]

theorem get_l3_hit (s : Cache) (ts tol : Int) (f : VideoFrame)
    (h1 : Cache.find_in_cache s.l1 ts tol = none)
    (h2 : Cache.find_in_cache s.l2 ts tol = none)
    (h3 : Cache.find_in_cache s.l3 ts tol = some f) :
    s.get ts tol =
      (some f, Cache.insert_l1 { s with l3_hits := s.l3_hits + 1 } ts f) := by
  unfold Cache.get
  rw [h1, h2, h3]

theorem get_total_miss (s : Cache) (ts tol : Int)
    (h1 : Cache.find_in_cache s.l1 ts tol = none)
    (h2 : Cache.find_in_cache s.l2 ts tol = none)
    (h3 : Cache.find_in_cache s.l3 ts tol = none) :
    s.get ts tol = (none, s) := by
  unfold Cache.get
  rw [h1, h2, h3]

theorem get_after_insert_l1 (s : Cache) (ts : Int) (f : VideoFrame) :
    (s.insert_l1 ts f).get ts 0 =
      (some f,
       { s.insert_l1 ts f with l1_hits := (s.insert_l1 ts f).l1_hits + 1 }) := by
  apply get_l1_hit
  exact find_in_cache_exact _ ts 0 _ (mapGet_insert_l1 s ts f)

/-- C2: `get(ts, tol)` consults L1, then L2, then L3; the first matching tier
yields the returned frame and exactly that tier's hit counter grows by one
(the full state equation shows every other counter and tier untouched apart
from the L1 promotion); an L2 or L3 hit inserts the returned frame into L1 so
that an immediately following `get` at the same timestamp with zero tolerance
is an L1 hit returning the same frame and bumping only the L1 hit counter;
a total miss returns `None` with the state (all counters included) unchanged;
and the miss counter grows only through an explicit `record_miss` call. -/
theorem C2_get_tier_order_promotion_and_counters (s : Cache) (ts tol : Int) :
    (∀ f, Cache.find_in_cache s.l1 ts tol = some f →
       s.get ts tol = (some f, { s with l1_hits := s.l1_hits + 1 })) ∧
    (∀ f, Cache.find_in_cache s.l1 ts tol = none →
       Cache.find_in_cache s.l2 ts tol = some f →
       s.get ts tol =
         (some f, Cache.insert_l1 { s with l2_hits := s.l2_hits + 1 } ts f) ∧
       ((s.get ts tol).2.get ts 0).1 = some f ∧
       ((s.get ts tol).2.get ts 0).2 =
         { (s.get ts tol).2 with l1_hits := (s.get ts tol).2.l1_hits + 1 }) ∧
    (∀ f, Cache.find_in_cache s.l1 ts tol = none →
       Cache.find_in_cache s.l2 ts tol = none →
       Cache.find_in_cache s.l3 ts tol = some f →
       s.get ts tol =
         (some f, Cache.insert_l1 { s with l3_hits := s.l3_hits + 1 } ts f) ∧
       ((s.get ts tol).2.get ts 0).1 = some f ∧
       ((s.get ts tol).2.get ts 0).2 =
         { (s.get ts tol).2 with l1_hits := (s.get ts tol).2.l1_hits + 1 }) ∧
    (Cache.find_in_cache s.l1 ts tol = none →
       Cache.find_in_cache s.l2 ts tol = none →
       Cache.find_in_cache s.l3 ts tol = none →
       s.get ts tol = (none, s)) ∧
    s.record_miss = { s with misses := s.misses + 1 } := by
  refine ⟨fun f h => get_l1_hit s ts tol f h, ?_, ?_, get_total_miss s ts tol, rfl⟩
  · intro f h1 h2
    have hmain := get_l2_hit s ts tol f h1 h2
    refine ⟨hmain, ?_, ?_⟩
    · rw [hmain]
      rw [get_after_insert_l1]
    · rw [hmain]
      rw [get_after_insert_l1]
  · intro f h1 h2 h3
    have hmain := get_l3_hit s ts tol f h1 h2 h3
    refine ⟨hmain, ?_, ?_⟩
    · rw [hmain]
      rw [get_after_insert_l1]
    · rw [hmain]
      rw [get_after_insert_l1]

/-- C2 witness: a keyframe stored only in L2 at pts 0; `get(0, 0)` is an L2
hit with promotion, and the immediately following `get(0, 0)` is an L1 hit
on the promoted entry. -/
theorem C2_get_tier_order_promotion_and_counters_witness :
    ((Cache.new cfgDefault).insert_l2 0 (testFrame 0 true)).get 0 0 =
      (some (testFrame 0 true),
       Cache.insert_l1
         { (Cache.new cfgDefault).insert_l2 0 (testFrame 0 true) with
           l2_hits :=
             ((Cache.new cfgDefault).insert_l2 0 (testFrame 0 true)).l2_hits + 1 }
         0 (testFrame 0 true)) ∧
    ((((Cache.new cfgDefault).insert_l2 0 (testFrame 0 true)).get 0 0).2.get
        0 0).1 = some (testFrame 0 true) ∧
    ((((Cache.new cfgDefault).insert_l2 0 (testFrame 0 true)).get 0 0).2.get
        0 0).2 =
      { (((Cache.new cfgDefault).insert_l2 0 (testFrame 0 true)).get 0 0).2 with
        l1_hits :=
          (((Cache.new cfgDefault).insert_l2 0
            (testFrame 0 true)).get 0 0).2.l1_hits + 1 } :=
  (C2_get_tier_order_promotion_and_counters
      ((Cache.new cfgDefault).insert_l2 0 (testFrame 0 true)) 0 0).2.1
    (testFrame 0 true) (by decide) (by decide)

/-- C10: when `get(ts, tol)` misses L1 and hits L2 or L3 on a non-exact
match — the matched entry is stored under key `k` with `k ≠ ts` and its
frame's `pts_us` equals `k` — the promotion inserts the matched frame into L1
under the queried timestamp `ts` (not under `k`): afterwards L1 holds an
entry keyed `ts` whose frame's `pts_us` field is `k`, so an L1 key need not
equal its frame's presentation timestamp.  One conjunct per promoting tier
(L2 hit, and L3 hit with L2 also missing). -/
theorem C10_promotion_keyed_by_queried_timestamp (s : Cache) (ts tol : Int) :
    (∀ (k : Int) (e : CacheEntry),
       Cache.find_in_cache s.l1 ts tol = none →
       Cache.find_in_cache s.l2 ts tol = some e.frame →
       (k, e) ∈ s.l2 → e.frame.pts_us = k → k ≠ ts →
       (s.get ts tol).2 =
         Cache.insert_l1 { s with l2_hits := s.l2_hits + 1 } ts e.frame ∧
       mapGet (s.get ts tol).2.l1 ts =
         some { frame := e.frame, access_count := 1 } ∧
       ((mapGet (s.get ts tol).2.l1 ts).map (fun en => en.frame.pts_us) =
          some k ∧ k ≠ ts)) ∧
    (∀ (k : Int) (e : CacheEntry),
       Cache.find_in_cache s.l1 ts tol = none →
       Cache.find_in_cache s.l2 ts tol = none →
       Cache.find_in_cache s.l3 ts tol = some e.frame →
       (k, e) ∈ s.l3 → e.frame.pts_us = k → k ≠ ts →
       (s.get ts tol).2 =
         Cache.insert_l1 { s with l3_hits := s.l3_hits + 1 } ts e.frame ∧
       mapGet (s.get ts tol).2.l1 ts =
         some { frame := e.frame, access_count := 1 } ∧
       ((mapGet (s.get ts tol).2.l1 ts).map (fun en => en.frame.pts_us) =
          some k ∧ k ≠ ts)) := by
  constructor
  · intro k e h1 h2 hkey hpts hne
    have hmain := get_l2_hit s ts tol e.frame h1 h2
    have hstate : (s.get ts tol).2 =
        Cache.insert_l1 { s with l2_hits := s.l2_hits + 1 } ts e.frame := by
      rw [hmain]
    have hget : mapGet (s.get ts tol).2.l1 ts =
        some { frame := e.frame, access_count := 1 } := by
      rw [hstate]
      exact mapGet_insert_l1 _ ts _
    refine ⟨hstate, hget, ?_, hne⟩
    rw [hget]
    simp [hpts]
  · intro k e h1 h2 h3 hkey hpts hne
    have hmain := get_l3_hit s ts tol e.frame h1 h2 h3
    have hstate : (s.get ts tol).2 =
        Cache.insert_l1 { s with l3_hits := s.l3_hits + 1 } ts e.frame := by
      rw [hmain]
    have hget : mapGet (s.get ts tol).2.l1 ts =
        some { frame := e.frame, access_count := 1 } := by
      rw [hstate]
      exact mapGet_insert_l1 _ ts _
    refine ⟨hstate, hget, ?_, hne⟩
    rw [hget]
    simp [hpts]

/-- C10 witness: both promoting tiers.  A keyframe with `pts_us = 1000`
stored in L2 under key 1000: `get(1300, 1000)` matches it non-exactly and
promotes it into L1 under key 1300, the stored frame still carrying
`pts_us = 1000`.  And a frame with `pts_us = 2000` stored only in L3 under
key 2000: `get(2300, 1000)` misses L1 and L2, hits L3 non-exactly, and
promotes it into L1 under key 2300, the stored frame still carrying
`pts_us = 2000`. -/
theorem C10_promotion_keyed_by_queried_timestamp_witness :
    ((((Cache.new cfgDefault).insert_l2 1000 (testFrame 1000 true)).get
        1300 1000).2 =
      Cache.insert_l1
        { (Cache.new cfgDefault).insert_l2 1000 (testFrame 1000 true) with
          l2_hits :=
            ((Cache.new cfgDefault).insert_l2 1000
              (testFrame 1000 true)).l2_hits + 1 }
        1300 (testFrame 1000 true) ∧
     mapGet (((Cache.new cfgDefault).insert_l2 1000
        (testFrame 1000 true)).get 1300 1000).2.l1 1300 =
      some { frame := testFrame 1000 true, access_count := 1 } ∧
     ((mapGet (((Cache.new cfgDefault).insert_l2 1000
        (testFrame 1000 true)).get 1300 1000).2.l1 1300).map
        (fun en => en.frame.pts_us) = some 1000 ∧ (1000 : Int) ≠ 1300)) ∧
    ((((Cache.new cfgDefault).insert_l3 2000 (testFrame 2000 false)).get
        2300 1000).2 =
      Cache.insert_l1
        { (Cache.new cfgDefault).insert_l3 2000 (testFrame 2000 false) with
          l3_hits :=
            ((Cache.new cfgDefault).insert_l3 2000
              (testFrame 2000 false)).l3_hits + 1 }
        2300 (testFrame 2000 false) ∧
     mapGet (((Cache.new cfgDefault).insert_l3 2000
        (testFrame 2000 false)).get 2300 1000).2.l1 2300 =
      some { frame := testFrame 2000 false, access_count := 1 } ∧
     ((mapGet (((Cache.new cfgDefault).insert_l3 2000
        (testFrame 2000 false)).get 2300 1000).2.l1 2300).map
        (fun en => en.frame.pts_us) = some 2000 ∧ (2000 : Int) ≠ 2300)) :=
  ⟨(C10_promotion_keyed_by_queried_timestamp
      ((Cache.new cfgDefault).insert_l2 1000 (testFrame 1000 true))
      1300 1000).1 1000
      { frame := testFrame 1000 true, access_count := 1 }
      (by decide) (by decide) (by decide) (by decide) (by decide),
   (C10_promotion_keyed_by_queried_timestamp
      ((Cache.new cfgDefault).insert_l3 2000 (testFrame 2000 false))
      2300 1000).2 2000
      { frame := testFrame 2000 false, access_count := 1 }
      (by decide) (by decide) (by decide) (by decide) (by decide) (by decide)⟩

/-! ## Throttle lemmas -/

theorem max_half_pos (v : ℚ) : (0 : ℚ) < max |v| (1/2) :=
  lt_of_lt_of_le (by norm_num) (le_max_right _ _)

/-- C9 (amended): between decoded frames the worker computes
`sleep_ms = floor(100 / max(|velocity|, 0.5))` milliseconds — inversely
proportional to `|velocity|` — and sleeps only when `0 < sleep_ms < 100`.
Hence every sleep actually performed is bounded above by 99 ms, and whenever
`1 < |velocity| ≤ 100` a sleep of at least 1 ms occurs with exactly the
computed duration; but there is no positive floor forcing a sleep for every
velocity: when `|velocity| ≤ 1` or `|velocity| > 100` no sleep occurs at
all. -/
theorem C9_throttle_sleep_clamp (v : ℚ) :
    throttleSleepMs v ≤ 99 ∧
    (1 < |v| → |v| ≤ 100 →
      1 ≤ throttleSleepMs v ∧ throttleSleepMs v = sleepMsOf v) ∧
    ((|v| ≤ 1 ∨ 100 < |v|) → throttleSleepMs v = 0) := by
  have hM : (0 : ℚ) < max |v| (1/2) := max_half_pos v
  refine ⟨?_, ?_, ?_⟩
  · unfold throttleSleepMs
    split <;> omega
  · intro h1 h2
    have hmax : max |v| (1/2) = |v| := max_eq_left (by linarith)
    have hvpos : (0 : ℚ) < |v| := by linarith
    have hlo : 1 ≤ ⌊(100 : ℚ) / max |v| (1/2)⌋ := by
      rw [Int.le_floor, hmax]
      push_cast
      rw [one_le_div hvpos]
      linarith
    have hhi : ⌊(100 : ℚ) / max |v| (1/2)⌋ < 100 := by
      rw [Int.floor_lt, hmax]
      push_cast
      rw [div_lt_iff₀ hvpos]
      nlinarith
    have hs1 : 1 ≤ sleepMsOf v := by
      unfold sleepMsOf
      omega
    have hs2 : sleepMsOf v < 100 := by
      unfold sleepMsOf
      omega
    have hcond : 0 < sleepMsOf v ∧ sleepMsOf v < 100 := ⟨hs1, hs2⟩
    unfold throttleSleepMs
    rw [if_pos hcond]
    exact ⟨hs1, rfl⟩
  · intro h
    rcases h with h | h
    · have hmle : max |v| (1/2) ≤ 1 := max_le h (by norm_num)
      have hlo : (100 : ℤ) ≤ ⌊(100 : ℚ) / max |v| (1/2)⌋ := by
        rw [Int.le_floor]
        push_cast
        rw [le_div_iff₀ hM]
        nlinarith
      have hs : 100 ≤ sleepMsOf v := by
        unfold sleepMsOf
        omega
      unfold throttleSleepMs
      rw [if_neg (by omega)]
    · have hmax : max |v| (1/2) = |v| := max_eq_left (by linarith)
      have hvpos : (0 : ℚ) < |v| := by linarith
      have hhi : ⌊(100 : ℚ) / max |v| (1/2)⌋ < 1 := by
        rw [Int.floor_lt, hmax]
        push_cast
        rw [div_lt_iff₀ hvpos]
        linarith
      have hs : sleepMsOf v = 0 := by
        unfold sleepMsOf
        omega
      unfold throttleSleepMs
      rw [if_neg (by omega)]

/-- C9 witness: at velocity 10 the worker sleeps exactly
`floor(100 / 10) = 10` ms, within the 1..99 clamp. -/
theorem C9_throttle_sleep_clamp_witness :
    1 < |(10 : ℚ)| ∧ |(10 : ℚ)| ≤ 100 ∧
    throttleSleepMs 10 ≤ 99 ∧
    (1 ≤ throttleSleepMs 10 ∧ throttleSleepMs 10 = sleepMsOf 10) := by
  have h := C9_throttle_sleep_clamp 10
  have h1 : 1 < |(10 : ℚ)| := by norm_num
  have h2 : |(10 : ℚ)| ≤ 100 := by norm_num
  exact ⟨h1, h2, h.1, h.2.1 h1 h2⟩

/-- C9 counterexample: at velocity 200 the computed `sleep_ms` is 0 and at
velocity 1/2 it is 200, so in neither case does any sleep occur — refuting
the claim that the inter-frame sleep is bounded below by a fixed positive
floor for every velocity (a sleep always occurring). -/
theorem C9_counterexample :
    sleepMsOf 200 = 0 ∧ throttleSleepMs 200 = 0 ∧
    sleepMsOf (1/2) = 200 ∧ throttleSleepMs (1/2) = 0 := by
  have habs : |(200 : ℚ)| = 200 := abs_of_pos (by norm_num)
  have hmax : max |(200 : ℚ)| (1/2) = 200 := by
    rw [habs]
    exact max_eq_left (by norm_num)
  have hfloor : ⌊(100 : ℚ) / 200⌋ = 0 := by norm_num
  have hs : sleepMsOf 200 = 0 := by
    unfold sleepMsOf
    rw [hmax, hfloor]
    rfl
  have habs2 : |(1 : ℚ)/2| = 1/2 := abs_of_pos (by norm_num)
  have hmax2 : max |(1 : ℚ)/2| (1/2) = 1/2 := by
    rw [habs2]
    exact max_self _
  have hfloor2 : ⌊(100 : ℚ) / (1/2)⌋ = 200 := by norm_num
  have hs2 : sleepMsOf (1/2) = 200 := by
    unfold sleepMsOf
    rw [hmax2, hfloor2]
    rfl
  refine ⟨hs, ?_, hs2, ?_⟩
  · unfold throttleSleepMs
    rw [hs]
    simp
  · unfold throttleSleepMs
    rw [hs2]
    simp

/-! ## Prefetch-cycle bounds lemmas -/

theorem prefetchLoop_emits_in_bounds (decode : Int → DecodeOutcome)
    (direction frame_duration_us duration_us : Int) (maxf : Nat)
    (hdec : ∀ t f, decode t = DecodeOutcome.ok f →
      0 ≤ f.pts_us ∧ f.pts_us ≤ duration_us) :
    ∀ (fuel : Nat) (target : Int) (n : Nat) (cache : Cache) (p : Int),
      p ∈ (prefetchLoop decode direction frame_duration_us duration_us maxf
            fuel target n cache).1 → 0 ≤ p ∧ p ≤ duration_us := by
  intro fuel
  induction fuel with
  | zero =>
      intro target n cache p hp
      simp [prefetchLoop] at hp
  | succ fuel ih =>
      intro target n cache p hp
      simp only [prefetchLoop] at hp
      split at hp
      · split at hp
        · simp at hp
        · split at hp
          · exact ih _ _ _ p hp
          · split at hp
            · rename_i frame heq
              rcases List.mem_cons.mp hp with h1 | h1
              · subst h1
                exact hdec _ frame heq
              · exact ih _ _ _ p h1
            · exact ih _ _ _ p hp
            · exact ih _ _ _ p hp
      · simp at hp

theorem prefetchLoop_exits_out_of_bounds (decode : Int → DecodeOutcome)
    (direction frame_duration_us duration_us : Int) (maxf : Nat)
    (fuel : Nat) (target : Int) (n : Nat) (cache : Cache)
    (hout : target + direction * frame_duration_us < 0 ∨
      target + direction * frame_duration_us > duration_us) :
    (prefetchLoop decode direction frame_duration_us duration_us maxf fuel
      target n cache).1 = [] ∧
    (prefetchLoop decode direction frame_duration_us duration_us maxf fuel
      target n cache).2 = cache := by
  cases fuel with
  | zero => exact ⟨rfl, rfl⟩
  | succ fuel =>
      simp only [prefetchLoop]
      split
      · exact ⟨rfl, rfl⟩
      · exact ⟨rfl, rfl⟩

/-- C7: for a prefetch activation with `direction = +1` against a stream of
duration `duration_us` whose decode engine only ever produces frames with
`pts_us` inside `[0, duration_us]`, the worker's prefetch cycle never emits a
`Frame` result whose `pts_us` lies outside `[0, duration_us]`; and as soon as
the advanced `target_time` leaves `[0, duration_us]` the loop exits, emitting
nothing further and leaving the cache untouched (frames are decoded and
reported only for in-bounds targets). -/
theorem C7_prefetch_emits_only_in_bounds (decode : Int → DecodeOutcome)
    (frame_rate : ℚ) (duration_us current_time_us : Int) (fuel : Nat)
    (cache : Cache)
    (hdec : ∀ t f, decode t = DecodeOutcome.ok f →
      0 ≤ f.pts_us ∧ f.pts_us ≤ duration_us) :
    (∀ p ∈ (prefetchCycle decode 1 frame_rate duration_us current_time_us
        fuel cache).1, 0 ≤ p ∧ p ≤ duration_us) ∧
    (∀ (fuel2 : Nat) (target : Int) (n : Nat) (c : Cache),
      target + 1 * frameDurationUs frame_rate < 0 ∨
      target + 1 * frameDurationUs frame_rate > duration_us →
      (prefetchLoop decode 1 (frameDurationUs frame_rate) duration_us 30 fuel2
        target n c).1 = [] ∧
      (prefetchLoop decode 1 (frameDurationUs frame_rate) duration_us 30 fuel2
        target n c).2 = c) := by
  constructor
  · intro p hp
    exact prefetchLoop_emits_in_bounds decode 1 (frameDurationUs frame_rate)
      duration_us 30 hdec fuel current_time_us 0 cache p hp
  · intro fuel2 target n c hout
    exact prefetchLoop_exits_out_of_bounds decode 1 (frameDurationUs frame_rate)
      duration_us 30 fuel2 target n c hout

/-- C7 witness: the demo decode oracle against a stream with
`duration_us = 1_000_000` and `frame_rate = 30`, prefetching forward from
999990 µs near the end of the stream. -/
theorem C7_prefetch_emits_only_in_bounds_witness :
    (∀ p ∈ (prefetchCycle demoDecode 1 30 1000000 999990 40
        (Cache.new cfgDefault)).1, 0 ≤ p ∧ p ≤ 1000000) ∧
    (∀ (fuel2 : Nat) (target : Int) (n : Nat) (c : Cache),
      target + 1 * frameDurationUs 30 < 0 ∨
      target + 1 * frameDurationUs 30 > 1000000 →
      (prefetchLoop demoDecode 1 (frameDurationUs 30) 1000000 30 fuel2
        target n c).1 = [] ∧
      (prefetchLoop demoDecode 1 (frameDurationUs 30) 1000000 30 fuel2
        target n c).2 = c) :=
  C7_prefetch_emits_only_in_bounds demoDecode 30 1000000 999990 40
    (Cache.new cfgDefault)
    (by
      intro t f h
      unfold demoDecode at h
      split at h
      · rename_i hcond
        cases h
        exact hcond
      · cases h)

/-! ## Prefetch-manager lifecycle lemmas -/

namespace PrefetchManager

theorem stop_generation (s : PrefetchManager) : (stop s).generation = s.generation := by
  unfold stop
  split <;> rfl

theorem stop_thread_count (s : PrefetchManager) :
    (stop s).thread_count = s.thread_count := by
  unfold stop
  split <;> rfl

theorem stop_channel (s : PrefetchManager) : (stop s).channel = s.channel := by
  unfold stop
  split <;> rfl

theorem stop_workers_sub (s : PrefetchManager) :
    ∀ w ∈ (stop s).workers, w ∈ s.workers := by
  unfold stop
  split
  · exact fun w hw => hw
  · intro w hw
    simp at hw

theorem stop_workers_of_running (s : PrefetchManager) (h : s.is_running = true) :
    (stop s).workers = [] := by
  unfold stop
  rw [h]
  rfl

theorem start_is_running (s : PrefetchManager) (d : Int) (v : ℚ) (t : Int) :
    (start s d v t).is_running = true := rfl

theorem start_generation (s : PrefetchManager) (d : Int) (v : ℚ) (t : Int) :
    (start s d v t).generation = s.generation + 1 := by
  rw [show (start s d v t).generation = (stop s).generation + 1 from rfl,
    stop_generation]

theorem start_thread_count (s : PrefetchManager) (d : Int) (v : ℚ) (t : Int) :
    (start s d v t).thread_count = s.thread_count := by
  rw [show (start s d v t).thread_count = (stop s).thread_count from rfl,
    stop_thread_count]

theorem start_workers (s : PrefetchManager) (d : Int) (v : ℚ) (t : Int) :
    (start s d v t).workers =
      (stop s).workers ++ (List.range s.thread_count).map
        (fun i => { generation := s.generation + 1, index := i,
                    ffmpeg_ctx := none : Worker }) := by
  rw [show (start s d v t).workers =
      (stop s).workers ++ (List.range (stop s).thread_count).map
        (fun i => { generation := (stop s).generation + 1, index := i,
                    ffmpeg_ctx := none : Worker }) from rfl,
    stop_thread_count, stop_generation]

theorem start_channel (s : PrefetchManager) (d : Int) (v : ℚ) (t : Int) :
    (start s d v t).channel =
      s.channel ++ [PrefetchCommand.start d v t] := by
  rw [show (start s d v t).channel =
      (stop s).channel ++ [PrefetchCommand.start d v t] from rfl, stop_channel]

theorem start_workers_of_running (s : PrefetchManager) (d : Int) (v : ℚ)
    (t : Int) (h : s.is_running = true) :
    (start s d v t).workers =
      (List.range s.thread_count).map
        (fun i => { generation := s.generation + 1, index := i,
                    ffmpeg_ctx := none : Worker }) := by
  rw [start_workers, stop_workers_of_running s h]
  rfl

end PrefetchManager

/-- C5: `start` on a running manager first performs a full synchronous stop
that joins (drains) every worker of the previous generation before any new
worker is spawned; consequently after two consecutive `start` calls without
an intervening `stop` exactly `thread_count` workers are live — all of them
belonging to the newest generation, none shared with the first `start`'s
generation — and never `2 * thread_count`. -/
theorem C5_start_joins_previous_generation (s : PrefetchManager)
    (d1 d2 : Int) (v1 v2 : ℚ) (t1 t2 : Int)
    (htc : 0 < s.thread_count)
    (hgen : ∀ w ∈ s.workers, w.generation ≤ s.generation) :
    ((s.start d1 v1 t1).is_running = true ∧
     (PrefetchManager.stop (s.start d1 v1 t1)).workers = []) ∧
    ((s.start d1 v1 t1).start d2 v2 t2).workers.length = s.thread_count ∧
    (∀ w ∈ ((s.start d1 v1 t1).start d2 v2 t2).workers,
       w.generation = s.generation + 2) ∧
    (∀ w ∈ (s.start d1 v1 t1).workers,
       w ∉ ((s.start d1 v1 t1).start d2 v2 t2).workers) ∧
    ((s.start d1 v1 t1).start d2 v2 t2).workers.length ≠ 2 * s.thread_count := by
  have hrun1 := PrefetchManager.start_is_running s d1 v1 t1
  have hw2 : ((s.start d1 v1 t1).start d2 v2 t2).workers =
      (List.range (s.start d1 v1 t1).thread_count).map
        (fun i => { generation := (s.start d1 v1 t1).generation + 1, index := i,
                    ffmpeg_ctx := none : Worker }) :=
    PrefetchManager.start_workers_of_running _ d2 v2 t2 hrun1
  rw [PrefetchManager.start_thread_count, PrefetchManager.start_generation]
    at hw2
  refine ⟨⟨hrun1, PrefetchManager.stop_workers_of_running _ hrun1⟩, ?_, ?_, ?_, ?_⟩
  · rw [hw2]
    simp
  · intro w hw
    rw [hw2] at hw
    simp only [List.mem_map, List.mem_range] at hw
    obtain ⟨i, _, rfl⟩ := hw
    rfl
  · intro w hw hw2mem
    have hle : w.generation ≤ s.generation + 1 := by
      rw [PrefetchManager.start_workers] at hw
      rcases List.mem_append.mp hw with h1 | h1
      · have := PrefetchManager.stop_workers_sub s w h1
        exact le_trans (hgen w this) (Nat.le_succ _)
      · simp only [List.mem_map, List.mem_range] at h1
        obtain ⟨i, _, rfl⟩ := h1
        exact le_refl _
    rw [hw2] at hw2mem
    simp only [List.mem_map, List.mem_range] at hw2mem
    obtain ⟨i, _, heq⟩ := hw2mem
    have : w.generation = s.generation + 1 + 1 := by
      rw [← heq]
    omega
  · rw [hw2]
    simp only [List.length_map, List.length_range]
    omega

/-- C5 witness: a fresh two-thread manager started twice in a row has exactly
2 live workers, not 4. -/
theorem C5_start_joins_previous_generation_witness :
    0 < (PrefetchManager.new 2).thread_count ∧
    (((PrefetchManager.new 2).start 1 1 0).start 1 2 5000).workers.length =
      (PrefetchManager.new 2).thread_count ∧
    (((PrefetchManager.new 2).start 1 1 0).start 1 2 5000).workers.length ≠
      2 * (PrefetchManager.new 2).thread_count := by
  have h := C5_start_joins_previous_generation (PrefetchManager.new 2)
    1 1 1 2 0 5000 (by decide) (by intro w hw; simp [PrefetchManager.new] at hw)
  exact ⟨by decide, h.2.1, h.2.2.2.2⟩

/-! ## Channel delivery lemmas -/

theorem countStarts_append (a b : List PrefetchCommand) :
    PrefetchManager.countStarts (a ++ b) =
      PrefetchManager.countStarts a + PrefetchManager.countStarts b := by
  unfold PrefetchManager.countStarts
  rw [List.filter_append, List.length_append]

theorem countStarts_eq_zero (a : List PrefetchCommand)
    (h : ∀ c ∈ a, PrefetchManager.isStart c = false) :
    PrefetchManager.countStarts a = 0 := by
  unfold PrefetchManager.countStarts
  rw [List.filter_eq_nil_iff.mpr (fun c hc => by simp [h c hc])]
  rfl

theorem start_only_at_end (msgs : List PrefetchCommand) (c : PrefetchCommand)
    (hno : ∀ x ∈ msgs, PrefetchManager.isStart x = false)
    (i : Fin (msgs ++ [c]).length)
    (hi : PrefetchManager.isStart ((msgs ++ [c]).get i) = true) :
    (i : Nat) = msgs.length := by
  by_contra hne
  have hisLt : (i : Nat) < msgs.length + 1 := by
    have h := i.isLt
    simpa [List.length_append] using h
  have hlt : (i : Nat) < msgs.length := by omega
  have hget : (msgs ++ [c]).get i = msgs[(i : Nat)] := by
    simp [List.get_eq_getElem, List.getElem_append_left hlt]
  rw [hget] at hi
  have hfalse := hno (msgs[(i : Nat)]) (List.getElem_mem hlt)
  rw [hfalse] at hi
  cases hi

/-- C6 (amended): each `start(direction, velocity, current_time)` call spawns
exactly `thread_count` workers — each with its own, per-worker decode-engine
slot (empty until that worker lazily creates its own `FFmpegContext` handle
upon acting on a `Start`) — and enqueues exactly one
`Start{direction, velocity, current_time}` command on the shared command
channel; since the channel is a point-to-point MPMC queue in which every
message is consumed by exactly one receiver, at most one of the workers can
receive and act on that `Start` command (not all of them). -/
theorem C6_start_spawns_workers_one_start_command (s : PrefetchManager)
    (d : Int) (v : ℚ) (t : Int)
    (hnostart : ∀ c ∈ s.channel, PrefetchManager.isStart c = false) :
    (s.start d v t).workers =
      (PrefetchManager.stop s).workers ++ (List.range s.thread_count).map
        (fun i => { generation := s.generation + 1, index := i,
                    ffmpeg_ctx := none : Worker }) ∧
    (s.start d v t).channel = s.channel ++ [PrefetchCommand.start d v t] ∧
    PrefetchManager.countStarts (s.start d v t).channel = 1 ∧
    (∀ (g : Fin (s.channel ++ [PrefetchCommand.start d v t]).length →
         Fin s.thread_count) (w1 w2 : Fin s.thread_count),
       PrefetchManager.deliversStartTo (s.channel ++ [PrefetchCommand.start d v t])
         s.thread_count g w1 →
       PrefetchManager.deliversStartTo (s.channel ++ [PrefetchCommand.start d v t])
         s.thread_count g w2 →
       w1 = w2) := by
  refine ⟨PrefetchManager.start_workers s d v t,
    PrefetchManager.start_channel s d v t, ?_, ?_⟩
  · rw [PrefetchManager.start_channel, countStarts_append,
      countStarts_eq_zero s.channel hnostart]
    rfl
  · rintro g w1 w2 ⟨i1, hs1, hg1⟩ ⟨i2, hs2, hg2⟩
    have he1 := start_only_at_end s.channel (PrefetchCommand.start d v t)
      hnostart i1 hs1
    have he2 := start_only_at_end s.channel (PrefetchCommand.start d v t)
      hnostart i2 hs2
    have : i1 = i2 := Fin.ext (he1.trans he2.symm)
    rw [← hg1, ← hg2, this]

/-- C6 witness: a fresh two-thread manager; `start` spawns its two workers
(each with an empty decode-engine slot of its own), enqueues exactly one
`Start` command, and no assignment of queued messages to workers delivers
that `Start` to two different workers. -/
theorem C6_start_spawns_workers_one_start_command_witness :
    ((PrefetchManager.new 2).start 1 1 0).workers =
      (PrefetchManager.stop (PrefetchManager.new 2)).workers ++
        (List.range (PrefetchManager.new 2).thread_count).map
          (fun i => { generation := (PrefetchManager.new 2).generation + 1,
                      index := i, ffmpeg_ctx := none : Worker }) ∧
    ((PrefetchManager.new 2).start 1 1 0).channel =
      (PrefetchManager.new 2).channel ++ [PrefetchCommand.start 1 1 0] ∧
    PrefetchManager.countStarts ((PrefetchManager.new 2).start 1 1 0).channel
      = 1 ∧
    (∀ (g : Fin ((PrefetchManager.new 2).channel ++
          [PrefetchCommand.start 1 1 0]).length →
         Fin (PrefetchManager.new 2).thread_count)
       (w1 w2 : Fin (PrefetchManager.new 2).thread_count),
       PrefetchManager.deliversStartTo ((PrefetchManager.new 2).channel ++
           [PrefetchCommand.start 1 1 0])
         (PrefetchManager.new 2).thread_count g w1 →
       PrefetchManager.deliversStartTo ((PrefetchManager.new 2).channel ++
           [PrefetchCommand.start 1 1 0])
         (PrefetchManager.new 2).thread_count g w2 →
       w1 = w2) :=
  C6_start_spawns_workers_one_start_command (PrefetchManager.new 2) 1 1 0
    (by intro c hc; simp [PrefetchManager.new] at hc)

/-- C6 counterexample: a two-thread manager started once holds exactly one
`Start` message in the shared command channel; under every assignment of
queued messages to consuming workers (each message consumed by exactly one
worker — the channel is not a broadcast), it is impossible that both worker 0
and worker 1 receive the `Start` command, refuting the claim that every one
of the `thread_count` workers receives and acts on it. -/
theorem C6_counterexample :
    ((PrefetchManager.new 2).start 1 1 0).workers.length = 2 ∧
    ((PrefetchManager.new 2).start 1 1 0).channel =
      [PrefetchCommand.start 1 1 0] ∧
    ∀ g : Fin ((PrefetchManager.new 2).start 1 1 0).channel.length → Fin 2,
      ¬ (PrefetchManager.deliversStartTo
           ((PrefetchManager.new 2).start 1 1 0).channel 2 g 0 ∧
         PrefetchManager.deliversStartTo
           ((PrefetchManager.new 2).start 1 1 0).channel 2 g 1) := by
  refine ⟨rfl, rfl, ?_⟩
  decide
